import Mathlib

/-
Verification of the role-detect core: a shallow embedding of the
segment grouper, confidence aggregator, talking-head detector,
disappearance-time search and classifier-output coercion, translated from
`src/app/grouping.py`, `src/app/talking_head.py`, `src/app/broll_meta.py`,
`src/timing.py`, `src/app/roll_classifier.py`, `src/app/utils.py` and
`src/app/schemas.py`.  Python floats are modelled as rationals, Python
`round` as round-half-to-even, and the external frame / presence
collaborators as explicit function arguments.
-/

/-
Batteries marks the rational-number field operations irreducible, which
blocks `decide` on concrete rational computations; restore default
reducibility so concrete runs of the embedded functions evaluate.
-/
set_option allowUnsafeReducibility true in
attribute [semireducible] Rat.add Rat.mul Rat.sub Rat.div Rat.inv Rat.ofScientific

/-- Roles, `RoleType = Literal["A-roll", "B-roll", "C-roll"]` in `app/schemas.py`. -/
inductive RoleType where
  | aRoll
  | bRoll
  | cRoll
deriving DecidableEq, Repr

/-- `FrameRole` from `app/schemas.py`: per-frame classification record.
Pydantic constrains the two ratios to [0,1] at construction but leaves
`confidence` unconstrained. -/
structure FrameRole where
  frame : String
  role : RoleType
  confidence : ℚ
  a_role_ratio : ℚ
  b_role_ratio : ℚ
deriving DecidableEq, Repr

/-- `Segment` from `app/schemas.py`.  The source field `end` is a Lean keyword
and is called `stop` here; `explanation` and the ratios default to
`None` / `0.0` in the source and the grouper never sets them. -/
structure Segment where
  start : String
  stop : String
  role : RoleType
  explanation : Option String
  a_role_ratio : ℚ
  b_role_ratio : ℚ
deriving DecidableEq, Repr

/-- `TalkingHeadResult` dataclass from `app/talking_head.py`; each evidence
entry is the `{"frame": ..., "description": ...}` pair. -/
structure TalkingHeadResult where
  is_talkinghead : Bool
  confidence : ℚ
  evidence : List (String × String)
deriving DecidableEq, Repr

/-- Python `f"{n:02d}"` for a natural number: zero-pad to two digits. -/
def pad2 (n : Nat) : String :=
  if n < 10 then "0" ++ toString n else toString n

/-- Python `f"{i:02d}"` for an integer (negative values print their sign). -/
def pad2Int (i : ℤ) : String :=
  if i < 0 then toString i else pad2 i.toNat

/-- Python `int(x)`: truncation toward zero. -/
def pyTrunc (q : ℚ) : ℤ :=
  if q < 0 then ⌈q⌉ else ⌊q⌋

/-- Python `round(x)`: round half to even (banker's rounding). -/
def pyRound (q : ℚ) : ℤ :=
  if q - ⌊q⌋ = 1/2 then (if 2 ∣ ⌊q⌋ then ⌊q⌋ else ⌊q⌋ + 1) else round q

/-- Python `round(x, 3)`: round to three decimal digits, half to even. -/
def round3 (q : ℚ) : ℚ :=
  (pyRound (q * 1000) : ℚ) / 1000

/-- `seconds_to_timecode` from `app/utils.py`: clamp below at 0, round to the
nearest whole second, render as "MM:SS". -/
def seconds_to_timecode (seconds : ℚ) : String :=
  let s := if seconds < 0 then 0 else seconds
  let total_seconds := (pyRound s).toNat
  pad2 (total_seconds / 60) ++ ":" ++ pad2 (total_seconds % 60)

/-- `seconds_to_timestamp` from `src/timing.py` and `src/app/broll_meta.py`:
truncate to whole seconds, render as "HH:MM:SS" using Python `divmod`
(floor division and modulo, which on ℤ are `/` and `%`, i.e. Euclidean
division). -/
def seconds_to_timestamp (seconds : ℚ) : String :=
  let total_seconds := pyTrunc seconds
  let hours := total_seconds / 3600
  let remainder := total_seconds % 3600
  let minutes := remainder / 60
  let secs := remainder % 60
  pad2Int hours ++ ":" ++ pad2Int minutes ++ ":" ++ pad2Int secs

/-- `frames_to_seconds` from `app/utils.py`: `frame_index / fps` when `fps`
is truthy and positive (equivalently, positive), else `float(frame_index)`. -/
def frames_to_seconds (frame_index : Nat) (fps : ℤ) : ℚ :=
  if 0 < fps then (frame_index : ℚ) / (fps : ℚ) else (frame_index : ℚ)

/-- Python `fps or 1` for `fps : int | None`: `None` and `0` are falsy and
become 1; every other integer (including negatives) is kept. -/
def fpsOr1 : Option ℤ → ℤ
  | none => 1
  | some f => if f = 0 then 1 else f

/-- The boundary-scanning loop of `group_frames_to_segments` and
`group_frames_with_indices` (`app/grouping.py`): walk `rest` (the frames from
position `idx` on), emit a segment whenever the role changes, then emit the
tail segment ending at `total / fps`. -/
def groupAux (fps : ℤ) (total : Nat) :
    List FrameRole → Nat → Nat → RoleType → List Segment
  | [], start_idx, _idx, current_role =>
      [⟨seconds_to_timecode (frames_to_seconds start_idx fps),
        seconds_to_timecode (frames_to_seconds total fps),
        current_role, none, 0, 0⟩]
  | f :: rest, start_idx, idx, current_role =>
      if f.role ≠ current_role then
        ⟨seconds_to_timecode (frames_to_seconds start_idx fps),
         seconds_to_timecode (frames_to_seconds idx fps),
         current_role, none, 0, 0⟩ :: groupAux fps total rest idx (idx + 1) f.role
      else
        groupAux fps total rest start_idx (idx + 1) current_role

/-- `group_frames_to_segments` from `app/grouping.py`. -/
def group_frames_to_segments (frames : List FrameRole) (fps : Option ℤ) :
    List Segment :=
  match frames with
  | [] => []
  | f0 :: rest => groupAux (fpsOr1 fps) frames.length rest 0 1 f0.role

/-- The `sums[fr.role] += fr.confidence` accumulation of
`average_confidence_by_role` (`app/grouping.py`), for one role. -/
def confSum (frames : List FrameRole) (r : RoleType) : ℚ :=
  frames.foldl (fun acc f => if f.role = r then acc + f.confidence else acc) 0

/-- The `counts[fr.role] += 1` accumulation of `average_confidence_by_role`
(`app/grouping.py`), for one role. -/
def confCount (frames : List FrameRole) (r : RoleType) : Nat :=
  frames.foldl (fun acc f => if f.role = r then acc + 1 else acc) 0

/-- `average_confidence_by_role` from `app/grouping.py`: iterate the three
roles in dict insertion order, report `round(sum/count, 3)` for each role
whose count is positive. -/
def average_confidence_by_role (frames : List FrameRole) :
    List (RoleType × ℚ) :=
  [RoleType.aRoll, RoleType.bRoll, RoleType.cRoll].filterMap fun r =>
    if 0 < confCount frames r then
      some (r, round3 (confSum frames r / (confCount frames r : ℚ)))
    else none

/-- The frame filter of `detect_talking_head` (`app/talking_head.py`): the
loop skips a frame unless role is A-roll, confidence ≥ 0.55 and
a_role_ratio ≥ 0.35. -/
def qualifies (f : FrameRole) : Bool :=
  if f.role ≠ RoleType.aRoll then false
  else if f.confidence < 0.55 then false
  else if f.a_role_ratio < 0.35 then false
  else true

/-- `qualified_indices` collected by `detect_talking_head`
(`app/talking_head.py`): indices of frames passing the filter, in order. -/
def qualified_indices (frames : List FrameRole) : List Nat :=
  (frames.enum.filter fun p => qualifies p.2).map Prod.fst

/-- The `zip(indices, indices[1:])` streak loop of `_max_consecutive`
(`app/talking_head.py`). -/
def maxConsecAux : Nat → Nat → Nat → List Nat → Nat
  | _prev, _streak, longest, [] => longest
  | prev, streak, longest, curr :: rest =>
      if curr = prev + 1 then
        maxConsecAux curr (streak + 1) (max longest (streak + 1)) rest
      else
        maxConsecAux curr 1 longest rest

/-- `_max_consecutive` from `app/talking_head.py`: 0 on the empty list,
otherwise the longest streak of successive values differing by one. -/
def max_consecutive : List Nat → Nat
  | [] => 0
  | a :: rest => maxConsecAux a 1 1 rest

/-- `detect_talking_head` from `app/talking_head.py`.  `min_consecutive` is a
Python `int` (default 3 at the call site).  When the decision comes out true
and `min_consecutive + 1 = 0` (i.e. `min_consecutive = -1`), the source
evaluates `longest_run / (min_consecutive + 1)` and raises
`ZeroDivisionError` instead of returning; that raised-exception path is
modelled as `none`. -/
def detect_talking_head (frames : List FrameRole) (explanations : List String)
    (min_consecutive : ℤ) : Option TalkingHeadResult :=
  if frames = [] then some ⟨false, 0, []⟩
  else
    let qualified := qualified_indices frames
    let coverage : ℚ := (qualified.length : ℚ) / (max 1 frames.length : ℚ)
    let longest_run := max_consecutive qualified
    let is_talking : Bool :=
      decide (min_consecutive ≤ (longest_run : ℤ)) ||
        (decide (min_consecutive ≤ (qualified.length : ℤ)) &&
          decide ((0.2 : ℚ) ≤ coverage))
    if is_talking = true ∧ min_consecutive + 1 = 0 then none
    else
      let confidence : ℚ :=
        if is_talking then
          min 0.99 (round3 (0.6 * coverage +
            0.4 * min 1 ((longest_run : ℚ) / ((min_consecutive : ℚ) + 1))))
        else round3 (coverage * 0.5)
      let evidence := (qualified.take 3).map fun idx =>
        let frameName := ((frames.get? idx).map FrameRole.frame).getD ""
        let description :=
          match explanations.get? idx with
          | some e => if e = "" then "Face-forward frame." else e
          | none => "Face-forward frame."
        (frameName, description)
      some ⟨is_talking, confidence, evidence⟩

/-- The per-second scan loop shared verbatim by
`find_talking_head_disappear_time` in `src/timing.py` and
`src/app/broll_meta.py`.  `check t = none` models `extract_frame_at_time`
returning `None` (the sample is skipped); `check t = some b` models the
`has_talking_head` answer.  `last` is `last_talking_head_time`; the loop
breaks with `some t` at the first absent sample after `last` was set. -/
def scanFrom (check : Nat → Option Bool) : Nat → Nat → Option Nat → Option Nat
  | 0, _t, _last => none
  | fuel + 1, t, last =>
      match check t with
      | none => scanFrom check fuel (t + 1) last
      | some true => scanFrom check fuel (t + 1) (some t)
      | some false =>
          match last with
          | some _ => some t
          | none => scanFrom check fuel (t + 1) none

/-- `disappear_time` as computed by both finders: scan the sample seconds
`0, 1, ..., n` (with `n = int(duration)`, so `n + 1` samples) and fall back
to `n` when the scan finds no transition. -/
def disappear_time_search (check : Nat → Option Bool) (n : Nat) : Nat :=
  (scanFrom check (n + 1) 0 none).getD n

namespace timing

/-- `find_talking_head_disappear_time` from `src/timing.py`: no safety
buffer, `time_start` is the disappearance second itself. -/
def find_talking_head_disappear_time (check : Nat → Option Bool)
    (duration : ℚ) : String × String :=
  let n := (pyTrunc duration).toNat
  let disappear_time := disappear_time_search check n
  (seconds_to_timestamp (disappear_time : ℚ), seconds_to_timestamp (n : ℚ))

end timing

namespace broll_meta

/-- `find_talking_head_disappear_time` from `src/app/broll_meta.py`: same
scan, then a one-second buffer capped at `int(duration)`. -/
def find_talking_head_disappear_time (check : Nat → Option Bool)
    (duration : ℚ) : String × String :=
  let n := (pyTrunc duration).toNat
  let disappear_time := disappear_time_search check n
  let disappear_time_with_buffer := disappear_time + 1
  let disappear_time_with_buffer :=
    if disappear_time_with_buffer > n then n else disappear_time_with_buffer
  (seconds_to_timestamp (disappear_time_with_buffer : ℚ),
   seconds_to_timestamp (n : ℚ))

end broll_meta

/-- `ALLOWED_ROLES` from `app/roll_classifier.py`. -/
def ALLOWED_ROLES : List String := ["A-roll", "B-roll", "C-roll"]

/-- A parsed classifier payload (`app/roll_classifier.py`, after
`json.loads`), seen through the accessors `classify_frame` applies.  Each
numeric field records what Python `float(...)` would do to the stored JSON
value: `none` means the key is missing, `some none` means `float` raises,
`some (some q)` means it yields `q`.  `role` and `explanation` record the
`str(...)` image of the stored value (`none` when the key is missing). -/
structure ClassifierPayload where
  role : Option String
  confidence : Option (Option ℚ)
  explanation : Option String
  a_role_ratio : Option (Option ℚ)
  b_role_ratio : Option (Option ℚ)
deriving DecidableEq, Repr

/-- The returned tuple of `classify_frame`
`(role, confidence, explanation, a_ratio, b_ratio)`, with named fields. -/
structure ClassifyResult where
  role : String
  confidence : ℚ
  explanation : String
  a_role_ratio : ℚ
  b_role_ratio : ℚ
deriving DecidableEq, Repr

/-- The role coercion of `classify_frame`: `str(payload.get("role",
"B-roll"))`, then out-of-set values become "B-roll". -/
def coerced_role (p : ClassifierPayload) : String :=
  let role := match p.role with
    | none => "B-roll"
    | some r => r
  if role ∈ ALLOWED_ROLES then role else "B-roll"

/-- The `_ratio` helper of `classify_frame`: clamp `float(payload.get(key,
0.0))` into [0,1], and 0.0 when `float` raises (a missing key defaults to
0.0, which `float` accepts). -/
def parsed_ratio : Option (Option ℚ) → ℚ
  | none => 0
  | some none => 0
  | some (some v) => max 0 (min 1 v)

/-- The confidence parse of `classify_frame`: `payload.get("confidence",
0.5)` through `float`, with 0.5 on failure (clamping happens in
`classify_frame`). -/
def parsed_confidence : Option (Option ℚ) → ℚ
  | none => 0.5
  | some none => 0.5
  | some (some v) => v

/-- The zero-pair substitution of `classify_frame`: when both parsed ratios
are 0.0, replace them by role-dependent defaults. -/
def substituted_ratios (role : String) (a_ratio b_ratio : ℚ) : ℚ × ℚ :=
  if a_ratio = 0 ∧ b_ratio = 0 then
    if role = "A-roll" then ((0.9 : ℚ), (0.1 : ℚ))
    else if role = "B-roll" then ((0 : ℚ), (1 : ℚ))
    else ((0.2 : ℚ), (0.8 : ℚ))
  else (a_ratio, b_ratio)

/-- The response-processing tail of `classify_frame`
(`app/roll_classifier.py` after the payload is parsed): coerce the role,
clamp the confidence, parse and clamp the ratios, substitute the zero
ratio pair, and round the ratios to 3 decimals.  The HTTP transport and
JSON-text recovery preceding this are the external collaborator; Python
`str(...).strip()` on the explanation is taken as given in the payload. -/
def classify_frame (p : ClassifierPayload) : ClassifyResult :=
  let role := coerced_role p
  let confidence := max 0 (min 1 (parsed_confidence p.confidence))
  let explanation := p.explanation.getD ""
  let a_ratio := parsed_ratio p.a_role_ratio
  let b_ratio := parsed_ratio p.b_role_ratio
  let pair := substituted_ratios role a_ratio b_ratio
  ⟨role, confidence, explanation, round3 pair.1, round3 pair.2⟩

/-- The predicate behind the spec's disappearance transition: sample `t`
answered "absent" and some earlier sample answered "present"
(failed extractions, `check s = none`, count as neither). -/
def isTransition (check : Nat → Option Bool) (t : Nat) : Prop :=
  check t = some false ∧ ∃ s, s < t ∧ check s = some true

instance isTransition.instDecidable (check : Nat → Option Bool) (t : Nat) :
    Decidable (isTransition check t) :=
  decidable_of_iff
    (check t = some false ∧ ∃ s ∈ List.range t, check s = some true)
    (by simp [isTransition, List.mem_range])

/-- Number of indices whose role differs from the previous index's role,
starting from a given previous role. -/
def changesFrom (previous : RoleType) : List FrameRole → Nat
  | [] => 0
  | f :: rest => (if f.role ≠ previous then 1 else 0) + changesFrom f.role rest

/-- Number of role-change boundaries of a frame sequence: indices `i ≥ 1`
with `frames[i].role ≠ frames[i-1].role`. -/
def roleChanges : List FrameRole → Nat
  | [] => 0
  | f :: rest => changesFrom f.role rest

/-- The reconstruction named by the idempotence claim: one `FrameRole` entry
per segment, in order, carrying that segment's role. -/
def segmentGranularity (segs : List Segment) : List FrameRole :=
  segs.map fun s => ⟨"", s.role, 0, 0, 0⟩

/-- The presence trace of the spec's worked example: present for
`t ∈ [0,4]`, absent afterwards, every frame extraction succeeding. -/
def exampleCheck : Nat → Option Bool :=
  fun t => if t ≤ 4 then some true else some false

/-- Concrete A-roll frames used in witnesses. -/
def frA : FrameRole := ⟨"f0", RoleType.aRoll, 0.9, 0.8, 0.1⟩

/-- Second concrete A-roll frame. -/
def frA2 : FrameRole := ⟨"f1", RoleType.aRoll, 0.9, 0.8, 0.1⟩

/-- Concrete B-roll frame. -/
def frB : FrameRole := ⟨"f2", RoleType.bRoll, 0.7, 0.1, 0.9⟩

/-- A payload whose ratio keys are missing. -/
def payloadMissingRatios : ClassifierPayload :=
  ⟨some "A-roll", some (some 0.8), some "", none, none⟩

/-- A payload with a tiny positive a-ratio and zero b-ratio. -/
def payloadTinyRatio : ClassifierPayload :=
  ⟨some "A-roll", some (some 0.9), some "", some (some (1/10000)), some (some 0)⟩

/-- A presence trace that always answers "present". -/
def checkAllPresent : Nat → Option Bool := fun _ => some true

theorem scanFrom_succ (check : Nat → Option Bool) (fuel t : Nat)
    (last : Option Nat) :
    scanFrom check (fuel + 1) t last =
      match check t with
      | none => scanFrom check fuel (t + 1) last
      | some true => scanFrom check fuel (t + 1) (some t)
      | some false =>
          match last with
          | some _ => some t
          | none => scanFrom check fuel (t + 1) none := rfl

theorem inv_none_intro (check : Nat → Option Bool) (t : Nat)
    (h : ∀ s, s < t → ¬ check s = some true) :
    ((none : Option Nat).isSome = true ↔ ∃ s, s < t ∧ check s = some true) := by
  simp only [Option.isSome_none]
  constructor
  · intro hft; exact absurd hft (by decide)
  · rintro ⟨s, hs, hstrue⟩; exact absurd hstrue (h s hs)

theorem inv_none_elim (check : Nat → Option Bool) (t : Nat)
    (hlast : ((none : Option Nat).isSome = true ↔
      ∃ s, s < t ∧ check s = some true)) :
    ∀ s, s < t → ¬ check s = some true := by
  intro s hs htrue
  have hft : (none : Option Nat).isSome = true := hlast.mpr ⟨s, hs, htrue⟩
  exact absurd hft (by decide)

theorem inv_keep (check : Nat → Option Bool) (t : Nat) (last : Option Nat)
    (hc : check t = none)
    (hlast : (last.isSome = true ↔ ∃ s, s < t ∧ check s = some true)) :
    (last.isSome = true ↔ ∃ s, s < t + 1 ∧ check s = some true) := by
  rw [hlast]
  constructor
  · rintro ⟨s, hs, hstrue⟩; exact ⟨s, by omega, hstrue⟩
  · rintro ⟨s, hs, hstrue⟩
    rcases Nat.lt_or_ge s t with h | h
    · exact ⟨s, h, hstrue⟩
    · have hst : s = t := by omega
      rw [hst, hc] at hstrue; cases hstrue

theorem scanFrom_eq_none (check : Nat → Option Bool) :
    ∀ (fuel t : Nat) (last : Option Nat),
      (last.isSome = true ↔ ∃ s, s < t ∧ check s = some true) →
      (∀ u, t ≤ u → u < t + fuel → ¬ isTransition check u) →
      scanFrom check fuel t last = none := by
  intro fuel
  induction fuel with
  | zero => intro t last _ _; rfl
  | succ fuel ih =>
    intro t last hlast hno
    cases hc : check t with
    | none =>
      rw [scanFrom_succ, hc]
      exact ih (t + 1) last (inv_keep check t last hc hlast)
        (fun u hu1 hu2 => hno u (by omega) (by omega))
    | some b =>
      cases b with
      | true =>
        rw [scanFrom_succ, hc]
        apply ih (t + 1) (some t)
        · simp only [Option.isSome_some, true_iff]
          exact ⟨t, Nat.lt_succ_self t, hc⟩
        · intro u hu1 hu2; exact hno u (by omega) (by omega)
      | false =>
        cases hl : last with
        | some s0 =>
          exfalso
          apply hno t le_rfl (by omega)
          refine ⟨hc, ?_⟩
          rw [hl] at hlast
          exact hlast.mp (by simp)
        | none =>
          rw [hl] at hlast
          have hnotrue := inv_none_elim check t hlast
          rw [scanFrom_succ, hc]
          apply ih (t + 1) none
          · apply inv_none_intro
            intro s hs htrue
            rcases Nat.lt_or_ge s t with h | h
            · exact hnotrue s h htrue
            · have hst : s = t := by omega
              rw [hst, hc] at htrue; cases htrue
          · intro u hu1 hu2; exact hno u (by omega) (by omega)

theorem scanFrom_eq_some (check : Nat → Option Bool) :
    ∀ (fuel t : Nat) (last : Option Nat) (u : Nat),
      (last.isSome = true ↔ ∃ s, s < t ∧ check s = some true) →
      t ≤ u → u < t + fuel →
      isTransition check u →
      (∀ v, t ≤ v → v < u → ¬ isTransition check v) →
      scanFrom check fuel t last = some u := by
  intro fuel
  induction fuel with
  | zero => intro t last u _ h1 h2 _ _; omega
  | succ fuel ih =>
    intro t last u hlast htu hu htrans hmin
    cases hc : check t with
    | none =>
      have hne : u ≠ t := by
        intro he; rw [he] at htrans; rw [htrans.1] at hc; cases hc
      rw [scanFrom_succ, hc]
      exact ih (t + 1) last u (inv_keep check t last hc hlast)
        (by omega) (by omega) htrans
        (fun v hv1 hv2 => hmin v (by omega) hv2)
    | some b =>
      cases b with
      | true =>
        have hne : u ≠ t := by
          intro he; rw [he] at htrans; rw [htrans.1] at hc; cases hc
        rw [scanFrom_succ, hc]
        apply ih (t + 1) (some t) u
        · simp only [Option.isSome_some, true_iff]
          exact ⟨t, Nat.lt_succ_self t, hc⟩
        · omega
        · omega
        · exact htrans
        · intro v hv1 hv2; exact hmin v (by omega) hv2
      | false =>
        cases hl : last with
        | some s0 =>
          have htt : isTransition check t := by
            refine ⟨hc, ?_⟩
            rw [hl] at hlast
            exact hlast.mp (by simp)
          have hut : u = t := by
            by_contra hne
            exact hmin t le_rfl (by omega) htt
          rw [scanFrom_succ, hc, hut]
        | none =>
          rw [hl] at hlast
          have hnotrue := inv_none_elim check t hlast
          have hne : u ≠ t := by
            intro he
            rcases htrans.2 with ⟨s, hs, hstrue⟩
            exact hnotrue s (by omega) hstrue
          rw [scanFrom_succ, hc]
          apply ih (t + 1) none u
          · apply inv_none_intro
            intro s hs htrue
            rcases Nat.lt_or_ge s t with h | h
            · exact hnotrue s h htrue
            · have hst : s = t := by omega
              rw [hst, hc] at htrue; cases htrue
          · omega
          · omega
          · exact htrans
          · intro v hv1 hv2; exact hmin v (by omega) hv2

/-- Claim C2: the disappearance scan visits sample seconds 0..n (with
n = floor of the duration); a failed frame extraction is skipped; the
reported disappear time is the first sample where presence is false after
some earlier sampled second had presence true, and when no such transition
exists over the whole scan it is n itself. -/
theorem C2_disappear_time_first_transition (check : Nat → Option Bool)
    (n : Nat) :
    (disappear_time_search check n = n ∧
      ∀ t, t ≤ n → ¬ isTransition check t) ∨
    (∃ t, t ≤ n ∧ isTransition check t ∧
      (∀ s, s < t → ¬ isTransition check s) ∧
      disappear_time_search check n = t) := by
  by_cases hex : ∃ t, t ≤ n ∧ isTransition check t
  · right
    have hex2 : ∃ t, isTransition check t := ⟨hex.choose, hex.choose_spec.2⟩
    refine ⟨Nat.find hex2, ?_, Nat.find_spec hex2, fun s hs => Nat.find_min hex2 hs, ?_⟩
    · exact le_trans (Nat.find_min' hex2 hex.choose_spec.2) hex.choose_spec.1
    · have hle : Nat.find hex2 ≤ n :=
        le_trans (Nat.find_min' hex2 hex.choose_spec.2) hex.choose_spec.1
      have hs := scanFrom_eq_some check (n + 1) 0 none (Nat.find hex2)
        (inv_none_intro check 0 (fun s hs => absurd hs (by omega)))
        (by omega) (by omega) (Nat.find_spec hex2)
        (fun v _ hv => Nat.find_min hex2 hv)
      unfold disappear_time_search
      rw [hs]
      rfl
  · left
    push_neg at hex
    have hs := scanFrom_eq_none check (n + 1) 0 none
      (inv_none_intro check 0 (fun s hs => absurd hs (by omega)))
      (fun u hu1 hu2 => hex u (by omega))
    constructor
    · unfold disappear_time_search
      rw [hs]
      rfl
    · exact hex

theorem buffer_if_eq_min (m d : ℕ) :
    (if d + 1 > m then m else d + 1) = min (d + 1) m := by
  rcases le_or_lt (d + 1) m with h | h
  · rw [if_neg (by omega), min_eq_left h]
  · rw [if_pos h, min_eq_right (by omega)]

/-- Claim C1: for every duration D ≥ 0 and presence trace, the
Disappearance-Time Finder of `app/broll_meta.py` reports time_start =
min(disappear_time + 1, floor D) and time_end = floor D, both rendered as
"HH:MM:SS"; on the spec's worked example (D = 10, present on [0,4], absent
on [5,10]) it returns ("00:00:06", "00:00:10"). -/
theorem C1_disappearance_window (check : Nat → Option Bool) (D : ℚ)
    (hD : 0 ≤ D) :
    broll_meta.find_talking_head_disappear_time check D =
      (seconds_to_timestamp
        ((min (disappear_time_search check ⌊D⌋.toNat + 1) ⌊D⌋.toNat : ℕ) : ℚ),
       seconds_to_timestamp ((⌊D⌋.toNat : ℕ) : ℚ)) ∧
    broll_meta.find_talking_head_disappear_time exampleCheck 10 =
      ("00:00:06", "00:00:10") := by
  constructor
  · have htr : pyTrunc D = ⌊D⌋ := by
      unfold pyTrunc
      rw [if_neg (not_lt.mpr hD)]
    simp only [broll_meta.find_talking_head_disappear_time, htr,
      buffer_if_eq_min]
  · decide

theorem C1_disappearance_window_witness :
    (0 : ℚ) ≤ 10 ∧
    broll_meta.find_talking_head_disappear_time exampleCheck 10 =
      (seconds_to_timestamp
        ((min (disappear_time_search exampleCheck ⌊(10 : ℚ)⌋.toNat + 1)
          ⌊(10 : ℚ)⌋.toNat : ℕ) : ℚ),
       seconds_to_timestamp ((⌊(10 : ℚ)⌋.toNat : ℕ) : ℚ)) :=
  ⟨by norm_num, (C1_disappearance_window exampleCheck 10 (by norm_num)).1⟩

theorem groupAux_props (fps : ℤ) (total : Nat) :
    ∀ (rest : List FrameRole) (start_idx idx : Nat) (role : RoleType),
      groupAux fps total rest start_idx idx role ≠ [] ∧
      (groupAux fps total rest start_idx idx role).head?.map Segment.start =
        some (seconds_to_timecode (frames_to_seconds start_idx fps)) ∧
      List.Chain' (fun a b => a.stop = b.start)
        (groupAux fps total rest start_idx idx role) ∧
      (groupAux fps total rest start_idx idx role).getLast?.map Segment.stop =
        some (seconds_to_timecode (frames_to_seconds total fps)) ∧
      (groupAux fps total rest start_idx idx role).length =
        1 + changesFrom role rest := by
  intro rest
  induction rest with
  | nil =>
    intro start_idx idx role
    exact ⟨by simp [groupAux], rfl, by simp [groupAux], rfl,
      by simp [groupAux, changesFrom]⟩
  | cons f rest ih =>
    intro start_idx idx role
    by_cases hrole : f.role = role
    · have hred : groupAux fps total (f :: rest) start_idx idx role =
          groupAux fps total rest start_idx (idx + 1) role := by
        simp only [groupAux]
        rw [if_neg (by simp [hrole])]
      rw [hred]
      have h := ih start_idx (idx + 1) role
      refine ⟨h.1, h.2.1, h.2.2.1, h.2.2.2.1, ?_⟩
      rw [h.2.2.2.2]
      simp [changesFrom, hrole]
    · have hred : groupAux fps total (f :: rest) start_idx idx role =
          ⟨seconds_to_timecode (frames_to_seconds start_idx fps),
           seconds_to_timecode (frames_to_seconds idx fps),
           role, none, 0, 0⟩ :: groupAux fps total rest idx (idx + 1) f.role := by
        simp only [groupAux]
        rw [if_pos (by simp [hrole])]
      have h := ih idx (idx + 1) f.role
      rcases List.exists_cons_of_ne_nil h.1 with ⟨b, l, hbl⟩
      rw [hbl] at h
      obtain ⟨hne, hhead, hchain, hlast, hlen⟩ := h
      have hbstart : b.start = seconds_to_timecode (frames_to_seconds idx fps) := by
        simpa using hhead
      rw [hred, hbl]
      refine ⟨by simp, by simp, ?_, ?_, ?_⟩
      · rw [List.chain'_cons]
        exact ⟨by rw [hbstart], hchain⟩
      · rw [List.getLast?_cons_cons]
        exact hlast
      · simp only [List.length_cons] at hlen ⊢
        have hch : changesFrom role (f :: rest) = 1 + changesFrom f.role rest := by
          simp [changesFrom, hrole]
        omega

/-- Claim C3: for a non-empty frame sequence the Segment Grouper covers the
whole index range with no gaps or overlaps: the first segment starts at
the timecode of index 0, each segment ends where the next begins, the last
segment ends at the timecode of the full length, and the number of
segments is 1 plus the number of role-change boundaries. -/
theorem C3_segment_cover (frames : List FrameRole) (fps : Option ℤ)
    (h : frames ≠ []) :
    (group_frames_to_segments frames fps).head?.map Segment.start =
      some (seconds_to_timecode (frames_to_seconds 0 (fpsOr1 fps))) ∧
    List.Chain' (fun a b => a.stop = b.start)
      (group_frames_to_segments frames fps) ∧
    (group_frames_to_segments frames fps).getLast?.map Segment.stop =
      some (seconds_to_timecode (frames_to_seconds frames.length (fpsOr1 fps))) ∧
    (group_frames_to_segments frames fps).length = 1 + roleChanges frames := by
  rcases List.exists_cons_of_ne_nil h with ⟨f0, rest, rfl⟩
  have hg : group_frames_to_segments (f0 :: rest) fps =
      groupAux (fpsOr1 fps) (f0 :: rest).length rest 0 1 f0.role := rfl
  have hp := groupAux_props (fpsOr1 fps) (f0 :: rest).length rest 0 1 f0.role
  rw [hg]
  exact ⟨hp.2.1, hp.2.2.1, hp.2.2.2.1, hp.2.2.2.2⟩

theorem C3_segment_cover_witness :
    ([frA, frA2, frB] : List FrameRole) ≠ [] ∧
    ((group_frames_to_segments [frA, frA2, frB] none).head?.map Segment.start =
      some (seconds_to_timecode (frames_to_seconds 0 (fpsOr1 none))) ∧
    List.Chain' (fun a b => a.stop = b.start)
      (group_frames_to_segments [frA, frA2, frB] none) ∧
    (group_frames_to_segments [frA, frA2, frB] none).getLast?.map Segment.stop =
      some (seconds_to_timecode
        (frames_to_seconds ([frA, frA2, frB] : List FrameRole).length (fpsOr1 none))) ∧
    (group_frames_to_segments [frA, frA2, frB] none).length =
      1 + roleChanges [frA, frA2, frB]) :=
  ⟨by decide, C3_segment_cover [frA, frA2, frB] none (by decide)⟩

theorem groupAux_head_role (fps : ℤ) (total : Nat) :
    ∀ (rest : List FrameRole) (start_idx idx : Nat) (role : RoleType),
      (groupAux fps total rest start_idx idx role).head?.map Segment.role =
        some role := by
  intro rest
  induction rest with
  | nil => intro s i role; rfl
  | cons f rest ih =>
    intro s i role
    by_cases hrole : f.role = role
    · have hred : groupAux fps total (f :: rest) s i role =
          groupAux fps total rest s (i + 1) role := by
        simp only [groupAux]
        rw [if_neg (by simp [hrole])]
      rw [hred]
      exact ih s (i + 1) role
    · have hred : groupAux fps total (f :: rest) s i role =
          ⟨seconds_to_timecode (frames_to_seconds s fps),
           seconds_to_timecode (frames_to_seconds i fps),
           role, none, 0, 0⟩ :: groupAux fps total rest i (i + 1) f.role := by
        simp only [groupAux]
        rw [if_pos (by simp [hrole])]
      rw [hred]
      rfl

theorem groupAux_chain_role_ne (fps : ℤ) (total : Nat) :
    ∀ (rest : List FrameRole) (start_idx idx : Nat) (role : RoleType),
      List.Chain' (fun a b => a.role ≠ b.role)
        (groupAux fps total rest start_idx idx role) := by
  intro rest
  induction rest with
  | nil => intro s i role; simp [groupAux]
  | cons f rest ih =>
    intro s i role
    by_cases hrole : f.role = role
    · have hred : groupAux fps total (f :: rest) s i role =
          groupAux fps total rest s (i + 1) role := by
        simp only [groupAux]
        rw [if_neg (by simp [hrole])]
      rw [hred]
      exact ih s (i + 1) role
    · have hred : groupAux fps total (f :: rest) s i role =
          ⟨seconds_to_timecode (frames_to_seconds s fps),
           seconds_to_timecode (frames_to_seconds i fps),
           role, none, 0, 0⟩ :: groupAux fps total rest i (i + 1) f.role := by
        simp only [groupAux]
        rw [if_pos (by simp [hrole])]
      rw [hred, List.chain'_cons']
      constructor
      · intro y hy
        have hh := groupAux_head_role fps total rest i (i + 1) f.role
        cases hhead : (groupAux fps total rest i (i + 1) f.role).head? with
        | none => rw [hhead] at hy; cases hy
        | some z =>
          rw [hhead] at hy hh
          have hyz : z = y := by simpa using hy
          have hz : z.role = f.role := by simpa using hh
          subst hyz
          intro hcontra
          rw [hz] at hcontra
          exact hrole hcontra.symm
      · exact ih i (i + 1) f.role

theorem groupAux_all_distinct (fps : ℤ) (total : Nat) :
    ∀ (rest : List FrameRole) (start_idx idx : Nat) (role : RoleType),
      List.Chain' Ne (role :: rest.map FrameRole.role) →
      (groupAux fps total rest start_idx idx role).map Segment.role =
        role :: rest.map FrameRole.role := by
  intro rest
  induction rest with
  | nil => intro s i role _; simp [groupAux]
  | cons f rest ih =>
    intro s i role hch
    rw [List.map_cons, List.chain'_cons] at hch
    obtain ⟨hne, hch'⟩ := hch
    have hrole : ¬ f.role = role := fun he => hne he.symm
    have hred : groupAux fps total (f :: rest) s i role =
        ⟨seconds_to_timecode (frames_to_seconds s fps),
         seconds_to_timecode (frames_to_seconds i fps),
         role, none, 0, 0⟩ :: groupAux fps total rest i (i + 1) f.role := by
      simp only [groupAux]
      rw [if_pos (by simp [hrole])]
    rw [hred, List.map_cons, ih i (i + 1) f.role hch', List.map_cons]

/-- Claim C7 (amended): re-running the Segment Grouper on the sequence
reconstructed from its own output at one entry per segment preserves the
segment roles in order (hence the segment count), though the start/end
timecodes are recomputed at one-frame-per-segment granularity and in
general differ from the originals. -/
theorem C7_regroup_preserves_roles (frames : List FrameRole) (fps : Option ℤ) :
    (group_frames_to_segments
      (segmentGranularity (group_frames_to_segments frames fps)) fps).map
        Segment.role =
      (group_frames_to_segments frames fps).map Segment.role := by
  have hchain : List.Chain' (fun a c => a.role ≠ c.role)
      (group_frames_to_segments frames fps) := by
    cases frames with
    | nil => simp [group_frames_to_segments]
    | cons f0 rest =>
      exact groupAux_chain_role_ne (fpsOr1 fps) (f0 :: rest).length rest 0 1
        f0.role
  cases hsegs : group_frames_to_segments frames fps with
  | nil => simp [segmentGranularity, group_frames_to_segments]
  | cons b l =>
    rw [hsegs] at hchain
    have hgrs : group_frames_to_segments (segmentGranularity (b :: l)) fps =
        groupAux (fpsOr1 fps) (segmentGranularity (b :: l)).length
          (l.map fun s => (⟨"", s.role, 0, 0, 0⟩ : FrameRole)) 0 1 b.role := rfl
    have hmapped :
        (l.map fun s => (⟨"", s.role, 0, 0, 0⟩ : FrameRole)).map FrameRole.role =
          l.map Segment.role := by
      rw [List.map_map]
      rfl
    have hchain2 : List.Chain' Ne (b.role ::
        (l.map fun s => (⟨"", s.role, 0, 0, 0⟩ : FrameRole)).map FrameRole.role) := by
      rw [hmapped]
      have hmap := (List.chain'_map Segment.role).mpr hchain
      simpa using hmap
    rw [hgrs, groupAux_all_distinct _ _ _ _ _ _ hchain2, List.map_cons, hmapped]

/-- Claim C7, as stated, is false: regrouping the one-entry-per-segment
reconstruction does not reproduce the original segments. -/
theorem C7_counterexample :
    group_frames_to_segments
      (segmentGranularity (group_frames_to_segments [frA, frA2, frB] none))
        none ≠
      group_frames_to_segments [frA, frA2, frB] none := by
  decide

theorem groupAux_fps_congr (fps1 fps2 : ℤ) (total : Nat)
    (h : ∀ j : Nat, frames_to_seconds j fps1 = frames_to_seconds j fps2) :
    ∀ (rest : List FrameRole) (start_idx idx : Nat) (role : RoleType),
      groupAux fps1 total rest start_idx idx role =
        groupAux fps2 total rest start_idx idx role := by
  intro rest
  induction rest with
  | nil => intro s i role; simp [groupAux, h s, h total]
  | cons f rest ih =>
    intro s i role
    by_cases hrole : f.role = role
    · have h1 : groupAux fps1 total (f :: rest) s i role =
          groupAux fps1 total rest s (i + 1) role := by
        simp only [groupAux]; rw [if_neg (by simp [hrole])]
      have h2 : groupAux fps2 total (f :: rest) s i role =
          groupAux fps2 total rest s (i + 1) role := by
        simp only [groupAux]; rw [if_neg (by simp [hrole])]
      rw [h1, h2]
      exact ih s (i + 1) role
    · have h1 : groupAux fps1 total (f :: rest) s i role =
          ⟨seconds_to_timecode (frames_to_seconds s fps1),
           seconds_to_timecode (frames_to_seconds i fps1),
           role, none, 0, 0⟩ :: groupAux fps1 total rest i (i + 1) f.role := by
        simp only [groupAux]; rw [if_pos (by simp [hrole])]
      have h2 : groupAux fps2 total (f :: rest) s i role =
          ⟨seconds_to_timecode (frames_to_seconds s fps2),
           seconds_to_timecode (frames_to_seconds i fps2),
           role, none, 0, 0⟩ :: groupAux fps2 total rest i (i + 1) f.role := by
        simp only [groupAux]; rw [if_pos (by simp [hrole])]
      rw [h1, h2, h s, h i, ih i (i + 1) f.role]

/-- Claim C8: running the Segment Grouper with an absent (`None`) or
non-positive fps produces the same segments as running it with fps = 1
(each frame treated as one second).  The hypothesis `fps.getD 0 ≤ 0` says
exactly "absent or non-positive". -/
theorem C8_nonpositive_fps (frames : List FrameRole) (fps : Option ℤ)
    (h : fps.getD 0 ≤ 0) :
    group_frames_to_segments frames fps =
      group_frames_to_segments frames (some 1) := by
  cases frames with
  | nil => rfl
  | cons f0 rest =>
    have hpt : ∀ j : Nat,
        frames_to_seconds j (fpsOr1 fps) = frames_to_seconds j (fpsOr1 (some 1)) := by
      intro j
      have h1 : fpsOr1 (some 1) = 1 := by simp [fpsOr1]
      rw [h1]
      cases fps with
      | none => rfl
      | some f =>
        simp only [Option.getD_some] at h
        by_cases hf0 : f = 0
        · simp [fpsOr1, hf0]
        · have h2 : fpsOr1 (some f) = f := by simp [fpsOr1, hf0]
          rw [h2]
          unfold frames_to_seconds
          rw [if_neg (by omega), if_pos (by norm_num)]
          norm_num
    show groupAux (fpsOr1 fps) (f0 :: rest).length rest 0 1 f0.role =
      groupAux (fpsOr1 (some 1)) (f0 :: rest).length rest 0 1 f0.role
    exact groupAux_fps_congr (fpsOr1 fps) (fpsOr1 (some 1))
      (f0 :: rest).length hpt rest 0 1 f0.role

theorem C8_nonpositive_fps_witness :
    ((some (-2 : ℤ) : Option ℤ).getD 0 ≤ 0) ∧
    group_frames_to_segments [frA, frB] (some (-2)) =
      group_frames_to_segments [frA, frB] (some 1) :=
  ⟨by decide, C8_nonpositive_fps [frA, frB] (some (-2)) (by decide)⟩

theorem scanFrom_lt_of_eq_some (check : Nat → Option Bool) :
    ∀ (fuel t : Nat) (last : Option Nat) (u : Nat),
      scanFrom check fuel t last = some u → u < t + fuel := by
  intro fuel
  induction fuel with
  | zero => intro t last u h; simp [scanFrom] at h
  | succ fuel ih =>
    intro t last u h
    cases hc : check t with
    | none =>
      rw [scanFrom_succ, hc] at h
      have := ih (t + 1) last u h
      omega
    | some b =>
      cases b with
      | true =>
        rw [scanFrom_succ, hc] at h
        have := ih (t + 1) (some t) u h
        omega
      | false =>
        cases hl : last with
        | some s0 =>
          rw [hl, scanFrom_succ, hc] at h
          have := Option.some.inj h
          omega
        | none =>
          rw [hl, scanFrom_succ, hc] at h
          have := ih (t + 1) none u h
          omega

theorem disappear_time_search_le (check : Nat → Option Bool) (n : Nat) :
    disappear_time_search check n ≤ n := by
  unfold disappear_time_search
  cases hs : scanFrom check (n + 1) 0 none with
  | none => simp
  | some u =>
    have := scanFrom_lt_of_eq_some check (n + 1) 0 none u hs
    simp only [Option.getD_some]
    omega

theorem string_data_inj (x y : String) (h : x.data = y.data) : x = y :=
  congrArg String.mk h

theorem pad2_data_length_two : ∀ m, m < 60 → ((pad2 m).data).length = 2 := by
  decide

theorem pad2_inj_lt60 :
    ∀ m1, m1 < 60 → ∀ m2, m2 < 60 → pad2 m1 = pad2 m2 → m1 = m2 := by
  decide

theorem pad2Int_natCast (n : ℕ) : pad2Int (n : ℤ) = pad2 n := by
  unfold pad2Int
  rw [if_neg (not_lt.mpr (Int.natCast_nonneg n))]
  rfl

theorem seconds_to_timestamp_natCast (a : ℕ) :
    seconds_to_timestamp (a : ℚ) =
      pad2 (a / 3600) ++ ":" ++ pad2 (a % 3600 / 60) ++ ":" ++
        pad2 (a % 3600 % 60) := by
  have h0 : pyTrunc (a : ℚ) = (a : ℤ) := by
    unfold pyTrunc
    rw [if_neg (not_lt.mpr (by positivity))]
    exact_mod_cast Int.floor_natCast a
  simp only [seconds_to_timestamp]
  rw [h0]
  have h1 : (a : ℤ) / 3600 = ((a / 3600 : ℕ) : ℤ) := by omega
  have h2 : (a : ℤ) % 3600 = ((a % 3600 : ℕ) : ℤ) := by omega
  rw [h1, h2]
  have h3 : ((a % 3600 : ℕ) : ℤ) / 60 = ((a % 3600 / 60 : ℕ) : ℤ) := by omega
  have h4 : ((a % 3600 : ℕ) : ℤ) % 60 = ((a % 3600 % 60 : ℕ) : ℤ) := by omega
  rw [h3, h4, pad2Int_natCast, pad2Int_natCast, pad2Int_natCast]

theorem seconds_to_timestamp_succ_ne (d : ℕ) :
    seconds_to_timestamp (d : ℚ) ≠ seconds_to_timestamp ((d + 1 : ℕ) : ℚ) := by
  rw [seconds_to_timestamp_natCast, seconds_to_timestamp_natCast]
  intro heq
  have hap : ∀ x y : String, (x ++ y).data = x.data ++ y.data := fun x y => rfl
  have hdata := congrArg String.data heq
  simp only [hap] at hdata
  have hlen : ((pad2 (d % 3600 % 60)).data).length =
      ((pad2 ((d + 1) % 3600 % 60)).data).length := by
    rw [pad2_data_length_two _ (by omega), pad2_data_length_two _ (by omega)]
  obtain ⟨-, hC⟩ := List.append_inj' hdata hlen
  have hCs : pad2 (d % 3600 % 60) = pad2 ((d + 1) % 3600 % 60) :=
    string_data_inj _ _ hC
  have := pad2_inj_lt60 _ (by omega) _ (by omega) hCs
  omega

/-- Claim C9 (amended): the two disappearance finders share the scan and
both report time_end = floor D rendered as "HH:MM:SS"; they differ on
time_start: `src/timing.py` reports the disappearance second itself while
`src/app/broll_meta.py` reports min(disappear_time + 1, floor D), and the
two pairs coincide exactly when disappear_time = floor D (in particular
when no transition occurs). -/
theorem C9_finders_differ_by_buffer (check : Nat → Option Bool) (D : ℚ)
    (hD : 0 ≤ D) :
    (timing.find_talking_head_disappear_time check D).2 =
      seconds_to_timestamp ((⌊D⌋.toNat : ℕ) : ℚ) ∧
    (broll_meta.find_talking_head_disappear_time check D).2 =
      seconds_to_timestamp ((⌊D⌋.toNat : ℕ) : ℚ) ∧
    (timing.find_talking_head_disappear_time check D).1 =
      seconds_to_timestamp ((disappear_time_search check ⌊D⌋.toNat : ℕ) : ℚ) ∧
    (broll_meta.find_talking_head_disappear_time check D).1 =
      seconds_to_timestamp
        ((min (disappear_time_search check ⌊D⌋.toNat + 1) ⌊D⌋.toNat : ℕ) : ℚ) ∧
    (timing.find_talking_head_disappear_time check D =
        broll_meta.find_talking_head_disappear_time check D ↔
      disappear_time_search check ⌊D⌋.toNat = ⌊D⌋.toNat) := by
  have htr : pyTrunc D = ⌊D⌋ := by
    unfold pyTrunc
    rw [if_neg (not_lt.mpr hD)]
  have ht2 : (timing.find_talking_head_disappear_time check D).2 =
      seconds_to_timestamp ((⌊D⌋.toNat : ℕ) : ℚ) := by
    simp only [timing.find_talking_head_disappear_time, htr]
  have hb2 : (broll_meta.find_talking_head_disappear_time check D).2 =
      seconds_to_timestamp ((⌊D⌋.toNat : ℕ) : ℚ) := by
    simp only [broll_meta.find_talking_head_disappear_time, htr]
  have ht1 : (timing.find_talking_head_disappear_time check D).1 =
      seconds_to_timestamp ((disappear_time_search check ⌊D⌋.toNat : ℕ) : ℚ) := by
    simp only [timing.find_talking_head_disappear_time, htr]
  have hb1 : (broll_meta.find_talking_head_disappear_time check D).1 =
      seconds_to_timestamp
        ((min (disappear_time_search check ⌊D⌋.toNat + 1) ⌊D⌋.toNat : ℕ) : ℚ) := by
    simp only [broll_meta.find_talking_head_disappear_time, htr,
      buffer_if_eq_min]
  refine ⟨ht2, hb2, ht1, hb1, ?_, ?_⟩
  · intro hpair
    by_contra hne
    have hle := disappear_time_search_le check ⌊D⌋.toNat
    have hlt : disappear_time_search check ⌊D⌋.toNat < ⌊D⌋.toNat :=
      lt_of_le_of_ne hle hne
    have hmin : min (disappear_time_search check ⌊D⌋.toNat + 1) ⌊D⌋.toNat =
        disappear_time_search check ⌊D⌋.toNat + 1 := min_eq_left (by omega)
    have h1 : (timing.find_talking_head_disappear_time check D).1 =
        (broll_meta.find_talking_head_disappear_time check D).1 :=
      congrArg Prod.fst hpair
    rw [ht1, hb1, hmin] at h1
    exact seconds_to_timestamp_succ_ne _ h1
  · intro hd
    have e1 : (timing.find_talking_head_disappear_time check D).1 =
        (broll_meta.find_talking_head_disappear_time check D).1 := by
      rw [ht1, hb1, hd, min_eq_right (Nat.le_succ _)]
    have e2 : (timing.find_talking_head_disappear_time check D).2 =
        (broll_meta.find_talking_head_disappear_time check D).2 := by
      rw [ht2, hb2]
    exact Prod.ext e1 e2

/-- Claim C9, as stated, is false: on the spec's worked example the two
finders return different time_start values ("00:00:05" vs "00:00:06"). -/
theorem C9_counterexample :
    timing.find_talking_head_disappear_time exampleCheck 10 ≠
      broll_meta.find_talking_head_disappear_time exampleCheck 10 := by
  decide

theorem C9_finders_differ_by_buffer_witness :
    (0 : ℚ) ≤ 3 ∧
    ((timing.find_talking_head_disappear_time checkAllPresent 3).2 =
      seconds_to_timestamp ((⌊(3 : ℚ)⌋.toNat : ℕ) : ℚ) ∧
    (broll_meta.find_talking_head_disappear_time checkAllPresent 3).2 =
      seconds_to_timestamp ((⌊(3 : ℚ)⌋.toNat : ℕ) : ℚ) ∧
    (timing.find_talking_head_disappear_time checkAllPresent 3).1 =
      seconds_to_timestamp
        ((disappear_time_search checkAllPresent ⌊(3 : ℚ)⌋.toNat : ℕ) : ℚ) ∧
    (broll_meta.find_talking_head_disappear_time checkAllPresent 3).1 =
      seconds_to_timestamp
        ((min (disappear_time_search checkAllPresent ⌊(3 : ℚ)⌋.toNat + 1)
          ⌊(3 : ℚ)⌋.toNat : ℕ) : ℚ) ∧
    (timing.find_talking_head_disappear_time checkAllPresent 3 =
        broll_meta.find_talking_head_disappear_time checkAllPresent 3 ↔
      disappear_time_search checkAllPresent ⌊(3 : ℚ)⌋.toNat = ⌊(3 : ℚ)⌋.toNat)) :=
  ⟨by norm_num, C9_finders_differ_by_buffer checkAllPresent 3 (by norm_num)⟩

/-- Claim C4 (amended): a frame qualifies iff it is A-roll with
confidence ≥ 0.55 and a_role_ratio ≥ 0.35.  With non-empty frames and
threshold = -1 the source raises ZeroDivisionError (the decision is then
always true and the confidence computation divides by threshold + 1 = 0),
returning nothing (`none`).  Provided the sequence is non-empty or the
threshold is at least 1, the call returns is_talking_head = true iff it
does not raise and the longest consecutive qualifying run reaches the
threshold, or the qualifying count reaches the threshold with
coverage ≥ 0.2.  (The empty sequence with a threshold ≤ 0 short-circuits
to false although the run condition holds.) -/
theorem C4_decision_rule (frames : List FrameRole) (explanations : List String)
    (th : ℤ) (f : FrameRole) (h : frames ≠ [] ∨ 1 ≤ th) :
    (qualifies f = true ↔
      (f.role = RoleType.aRoll ∧ (0.55 : ℚ) ≤ f.confidence ∧
        (0.35 : ℚ) ≤ f.a_role_ratio)) ∧
    (detect_talking_head frames explanations th = none ↔
      (frames ≠ [] ∧ th = -1)) ∧
    ((detect_talking_head frames explanations th).map
        TalkingHeadResult.is_talkinghead = some true ↔
      (¬ (frames ≠ [] ∧ th = -1) ∧
        (th ≤ (max_consecutive (qualified_indices frames) : ℤ) ∨
          (th ≤ ((qualified_indices frames).length : ℤ) ∧
            (0.2 : ℚ) ≤ ((qualified_indices frames).length : ℚ) /
              (max 1 frames.length : ℚ))))) := by
  refine ⟨?_, ?_, ?_⟩
  · unfold qualifies
    by_cases h1 : f.role = RoleType.aRoll
    · rw [if_neg (by simp [h1])]
      by_cases h2 : f.confidence < 0.55
      · rw [if_pos h2]
        constructor
        · intro hx; simp at hx
        · rintro ⟨_, hc, _⟩; exact absurd h2 (not_lt.mpr hc)
      · rw [if_neg h2]
        by_cases h3 : f.a_role_ratio < 0.35
        · rw [if_pos h3]
          constructor
          · intro hx; simp at hx
          · rintro ⟨_, _, hr⟩; exact absurd h3 (not_lt.mpr hr)
        · rw [if_neg h3]
          simp [h1, not_lt.mp h2, not_lt.mp h3]
    · rw [if_pos (by simp [h1])]
      constructor
      · intro hx; simp at hx
      · rintro ⟨hr, _, _⟩; exact absurd hr h1
  · by_cases hf : frames = []
    · subst hf
      simp only [detect_talking_head, if_pos rfl]
      constructor
      · intro hx; simp at hx
      · rintro ⟨hne, -⟩; exact absurd rfl hne
    · simp only [detect_talking_head, if_neg hf]
      by_cases hg : ((decide (th ≤ (max_consecutive (qualified_indices frames) : ℤ)) ||
          (decide (th ≤ ((qualified_indices frames).length : ℤ)) &&
            decide ((0.2 : ℚ) ≤ ((qualified_indices frames).length : ℚ) /
              (max 1 frames.length : ℚ)))) = true ∧ th + 1 = 0)
      · rw [if_pos hg]
        constructor
        · intro _; exact ⟨hf, by omega⟩
        · intro _; rfl
      · rw [if_neg hg]
        constructor
        · intro hx; simp at hx
        · rintro ⟨-, hth⟩
          exfalso
          apply hg
          subst hth
          refine ⟨?_, by omega⟩
          simp only [Bool.or_eq_true, decide_eq_true_eq]
          left
          have hnn := Int.natCast_nonneg
            (max_consecutive (qualified_indices frames))
          omega
  · by_cases hf : frames = []
    · subst hf
      rcases h with h | h
      · exact absurd rfl h
      · simp only [detect_talking_head, if_pos rfl, Option.map_some']
        constructor
        · intro hx; simp at hx
        · rintro ⟨-, hfo⟩
          have hq : qualified_indices ([] : List FrameRole) = [] := rfl
          rw [hq] at hfo
          simp only [max_consecutive, List.length_nil] at hfo
          rcases hfo with hle | ⟨hle, -⟩ <;> omega
    · simp only [detect_talking_head, if_neg hf]
      by_cases hg : ((decide (th ≤ (max_consecutive (qualified_indices frames) : ℤ)) ||
          (decide (th ≤ ((qualified_indices frames).length : ℤ)) &&
            decide ((0.2 : ℚ) ≤ ((qualified_indices frames).length : ℚ) /
              (max 1 frames.length : ℚ)))) = true ∧ th + 1 = 0)
      · rw [if_pos hg]
        simp only [Option.map_none']
        constructor
        · intro hx; simp at hx
        · rintro ⟨hnot, -⟩
          exact absurd ⟨hf, by omega⟩ hnot
      · rw [if_neg hg]
        simp only [Option.map_some', Option.some.injEq]
        have hform : (decide (th ≤ (max_consecutive (qualified_indices frames) : ℤ)) ||
            (decide (th ≤ ((qualified_indices frames).length : ℤ)) &&
              decide ((0.2 : ℚ) ≤ ((qualified_indices frames).length : ℚ) /
                (max 1 frames.length : ℚ)))) = true ↔
            (th ≤ (max_consecutive (qualified_indices frames) : ℤ) ∨
              (th ≤ ((qualified_indices frames).length : ℤ) ∧
                (0.2 : ℚ) ≤ ((qualified_indices frames).length : ℚ) /
                  (max 1 frames.length : ℚ))) := by
          simp only [Bool.or_eq_true, Bool.and_eq_true, decide_eq_true_eq]
        rw [hform]
        constructor
        · intro hfo
          refine ⟨?_, hfo⟩
          rintro ⟨-, hth⟩
          exact hg ⟨hform.mpr hfo, by omega⟩
        · rintro ⟨-, hfo⟩
          exact hfo

theorem C4_decision_rule_witness :
    (([frA] : List FrameRole) ≠ [] ∨ (1 : ℤ) ≤ 3) ∧
    ((qualifies frA = true ↔
      (frA.role = RoleType.aRoll ∧ (0.55 : ℚ) ≤ frA.confidence ∧
        (0.35 : ℚ) ≤ frA.a_role_ratio)) ∧
    (detect_talking_head [frA] [] 3 = none ↔
      (([frA] : List FrameRole) ≠ [] ∧ (3 : ℤ) = -1)) ∧
    ((detect_talking_head [frA] [] 3).map TalkingHeadResult.is_talkinghead =
        some true ↔
      (¬ (([frA] : List FrameRole) ≠ [] ∧ (3 : ℤ) = -1) ∧
        ((3 : ℤ) ≤ (max_consecutive (qualified_indices [frA]) : ℤ) ∨
          ((3 : ℤ) ≤ ((qualified_indices [frA]).length : ℤ) ∧
            (0.2 : ℚ) ≤ ((qualified_indices [frA]).length : ℚ) /
              (max 1 ([frA] : List FrameRole).length : ℚ)))))) :=
  ⟨Or.inr (by norm_num),
    C4_decision_rule [frA] [] 3 frA (Or.inr (by norm_num))⟩

/-- Claim C4, as stated, is false at the empty sequence with threshold 0:
the code returns is_talking_head = false although the longest qualifying
run (0) does reach the threshold. -/
theorem C4_counterexample :
    ¬ ((detect_talking_head [] [] 0).map TalkingHeadResult.is_talkinghead =
          some true ↔
        ((0 : ℤ) ≤ (max_consecutive (qualified_indices []) : ℤ) ∨
          ((0 : ℤ) ≤ ((qualified_indices ([] : List FrameRole)).length : ℤ) ∧
            (0.2 : ℚ) ≤ ((qualified_indices ([] : List FrameRole)).length : ℚ) /
              (max 1 ([] : List FrameRole).length : ℚ)))) := by
  decide

theorem confCount_go (r : RoleType) :
    ∀ (l : List FrameRole) (acc : Nat),
      l.foldl (fun a f => if f.role = r then a + 1 else a) acc =
        acc + (l.filter fun f => decide (f.role = r)).length := by
  intro l
  induction l with
  | nil => intro acc; simp
  | cons f l ih =>
    intro acc
    simp only [List.foldl_cons, List.filter_cons]
    by_cases hr : f.role = r
    · rw [if_pos hr, if_pos (by simp [hr]), ih]
      simp only [List.length_cons]
      omega
    · rw [if_neg hr, if_neg (by simp [hr]), ih]

theorem confSum_go (r : RoleType) :
    ∀ (l : List FrameRole) (acc : ℚ),
      l.foldl (fun a f => if f.role = r then a + f.confidence else a) acc =
        acc + ((l.filter fun f => decide (f.role = r)).map
          FrameRole.confidence).sum := by
  intro l
  induction l with
  | nil => intro acc; simp
  | cons f l ih =>
    intro acc
    simp only [List.foldl_cons, List.filter_cons]
    by_cases hr : f.role = r
    · rw [if_pos hr, if_pos (by simp [hr]), ih]
      simp only [List.map_cons, List.sum_cons]
      ring
    · rw [if_neg hr, if_neg (by simp [hr]), ih]

theorem confCount_eq_filter_length (frames : List FrameRole) (r : RoleType) :
    confCount frames r = (frames.filter fun f => decide (f.role = r)).length := by
  unfold confCount
  rw [confCount_go]
  omega

theorem confSum_eq_filter_sum (frames : List FrameRole) (r : RoleType) :
    confSum frames r =
      ((frames.filter fun f => decide (f.role = r)).map
        FrameRole.confidence).sum := by
  unfold confSum
  rw [confSum_go]
  ring

theorem confCount_pos_iff (frames : List FrameRole) (r : RoleType) :
    0 < confCount frames r ↔ ∃ f ∈ frames, f.role = r := by
  rw [confCount_eq_filter_length, List.length_pos, ← List.isEmpty_eq_false]
  simp [List.isEmpty_eq_false, List.filter_eq_nil_iff]

theorem listSum_bounds (vs : List ℚ) (h : ∀ v ∈ vs, 0 ≤ v ∧ v ≤ 1) :
    0 ≤ vs.sum ∧ vs.sum ≤ (vs.length : ℚ) := by
  induction vs with
  | nil => simp
  | cons v vs ih =>
    have hv := h v (by simp)
    have hrest := ih (fun w hw => h w (by simp [hw]))
    simp only [List.sum_cons, List.length_cons]
    constructor
    · linarith [hv.1, hrest.1]
    · push_cast
      linarith [hv.2, hrest.2]

theorem pyRound_nonneg (q : ℚ) (h : 0 ≤ q) : 0 ≤ pyRound q := by
  unfold pyRound
  split_ifs with h1 h2
  · exact Int.floor_nonneg.mpr h
  · have := Int.floor_nonneg.mpr h
    omega
  · rw [round_eq]
    exact Int.floor_nonneg.mpr (by linarith)

theorem pyRound_le (q : ℚ) (M : ℤ) (h : q ≤ M) : pyRound q ≤ M := by
  unfold pyRound
  split_ifs with h1 h2
  · have hf := Int.floor_le_floor h
    rwa [Int.floor_intCast] at hf
  · have hq : (⌊q⌋ : ℚ) = q - 1/2 := by linarith
    have hlt : (⌊q⌋ : ℚ) < M := by rw [hq]; linarith
    have : ⌊q⌋ < M := by exact_mod_cast hlt
    omega
  · rw [round_eq]
    have hlt : q + 1/2 < (M : ℚ) + 1 := by linarith
    have := Int.floor_lt.mpr (by push_cast; linarith : q + 1/2 < ((M + 1 : ℤ) : ℚ))
    omega

theorem round3_bounds (q : ℚ) (h0 : 0 ≤ q) (h1 : q ≤ 1) :
    0 ≤ round3 q ∧ round3 q ≤ 1 := by
  unfold round3
  have hnn : 0 ≤ pyRound (q * 1000) := pyRound_nonneg _ (by positivity)
  have hle : pyRound (q * 1000) ≤ 1000 := pyRound_le _ 1000 (by push_cast; linarith)
  constructor
  · apply div_nonneg _ (by norm_num)
    exact_mod_cast hnn
  · rw [div_le_one (by norm_num)]
    exact_mod_cast hle

theorem avg_mem_iff (frames : List FrameRole) (r : RoleType) (w : ℚ) :
    (r, w) ∈ average_confidence_by_role frames ↔
      (0 < confCount frames r ∧
        w = round3 (confSum frames r / (confCount frames r : ℚ))) := by
  unfold average_confidence_by_role
  rw [List.mem_filterMap]
  constructor
  · rintro ⟨r', _, hg⟩
    by_cases hc : 0 < confCount frames r'
    · rw [if_pos hc] at hg
      have hpair := Option.some.inj hg
      have hr : r' = r := congrArg Prod.fst hpair
      subst hr
      exact ⟨hc, (congrArg Prod.snd hpair).symm⟩
    · rw [if_neg hc] at hg
      cases hg
  · rintro ⟨hc, hw⟩
    refine ⟨r, by cases r <;> simp, ?_⟩
    rw [if_pos hc, hw]

/-- Claim C5: for frame sequences whose confidences lie in [0,1] (the
data-model invariant), the Confidence Aggregator reports exactly the roles
that occur, each with the 3-decimal rounding of the arithmetic mean of
that role's confidences, and every reported value lies in [0,1]. -/
theorem C5_confidence_aggregator (frames : List FrameRole) (r : RoleType)
    (v : ℚ)
    (h : frames.all
      (fun f => decide (0 ≤ f.confidence) && decide (f.confidence ≤ 1)) = true) :
    ((∃ w, (r, w) ∈ average_confidence_by_role frames) ↔
      ∃ f ∈ frames, f.role = r) ∧
    confSum frames r =
      ((frames.filter fun f => decide (f.role = r)).map
        FrameRole.confidence).sum ∧
    confCount frames r =
      (frames.filter fun f => decide (f.role = r)).length ∧
    ((r, v) ∈ average_confidence_by_role frames →
      v = round3 (confSum frames r / (confCount frames r : ℚ)) ∧
        0 ≤ v ∧ v ≤ 1) := by
  have hall : ∀ f ∈ frames, 0 ≤ f.confidence ∧ f.confidence ≤ 1 := by
    intro f hf
    have := List.all_eq_true.mp h f hf
    simp only [Bool.and_eq_true, decide_eq_true_eq] at this
    exact this
  refine ⟨?_, confSum_eq_filter_sum frames r, confCount_eq_filter_length frames r, ?_⟩
  · constructor
    · rintro ⟨w, hw⟩
      exact (confCount_pos_iff frames r).mp ((avg_mem_iff frames r w).mp hw).1
    · intro hex
      exact ⟨round3 (confSum frames r / (confCount frames r : ℚ)),
        (avg_mem_iff frames r _).mpr ⟨(confCount_pos_iff frames r).mpr hex, rfl⟩⟩
  · intro hv
    obtain ⟨hc, hveq⟩ := (avg_mem_iff frames r v).mp hv
    have hvals : ∀ x ∈ (frames.filter fun f => decide (f.role = r)).map
        FrameRole.confidence, 0 ≤ x ∧ x ≤ 1 := by
      intro x hx
      rw [List.mem_map] at hx
      obtain ⟨f, hf, rfl⟩ := hx
      exact hall f (List.mem_of_mem_filter hf)
    have hsum := listSum_bounds _ hvals
    rw [List.length_map] at hsum
    have hcount : (0 : ℚ) < (confCount frames r : ℚ) := by exact_mod_cast hc
    have hmean0 : 0 ≤ confSum frames r / (confCount frames r : ℚ) := by
      apply div_nonneg _ (le_of_lt hcount)
      rw [confSum_eq_filter_sum]
      exact hsum.1
    have hmean1 : confSum frames r / (confCount frames r : ℚ) ≤ 1 := by
      rw [div_le_one hcount, confSum_eq_filter_sum]
      calc ((frames.filter fun f => decide (f.role = r)).map
          FrameRole.confidence).sum
          ≤ ((frames.filter fun f => decide (f.role = r)).length : ℚ) := hsum.2
        _ = (confCount frames r : ℚ) := by
            rw [confCount_eq_filter_length]
    have hb := round3_bounds _ hmean0 hmean1
    exact ⟨hveq, hveq ▸ hb.1, hveq ▸ hb.2⟩

theorem C5_confidence_aggregator_witness :
    ([frA, frB] : List FrameRole).all
      (fun f => decide (0 ≤ f.confidence) && decide (f.confidence ≤ 1)) = true ∧
    (((∃ w, (RoleType.aRoll, w) ∈ average_confidence_by_role [frA, frB]) ↔
      ∃ f ∈ ([frA, frB] : List FrameRole), f.role = RoleType.aRoll) ∧
    confSum [frA, frB] RoleType.aRoll =
      ((([frA, frB] : List FrameRole).filter
        fun f => decide (f.role = RoleType.aRoll)).map FrameRole.confidence).sum ∧
    confCount [frA, frB] RoleType.aRoll =
      (([frA, frB] : List FrameRole).filter
        fun f => decide (f.role = RoleType.aRoll)).length ∧
    ((RoleType.aRoll, (0.9 : ℚ)) ∈ average_confidence_by_role [frA, frB] →
      (0.9 : ℚ) = round3 (confSum [frA, frB] RoleType.aRoll /
        (confCount [frA, frB] RoleType.aRoll : ℚ)) ∧
        0 ≤ (0.9 : ℚ) ∧ (0.9 : ℚ) ≤ 1)) :=
  ⟨by decide, C5_confidence_aggregator [frA, frB] RoleType.aRoll 0.9 (by decide)⟩

theorem parsed_ratio_bounds (x : Option (Option ℚ)) :
    0 ≤ parsed_ratio x ∧ parsed_ratio x ≤ 1 := by
  cases x with
  | none => norm_num [parsed_ratio]
  | some y =>
    cases y with
    | none => norm_num [parsed_ratio]
    | some v =>
      unfold parsed_ratio
      exact ⟨le_max_left _ _, max_le (by norm_num) (min_le_left _ _)⟩

/-- Claim C6 (amended): `classify_frame` coerces the role into the closed
3-element set (out-of-set or missing values become "B-roll"), clamps the
confidence to [0,1] substituting 0.5 when it is missing or non-numeric,
and parses a missing or non-numeric ratio as 0.0 (clamped to [0,1]).
When the two parsed ratios are not both zero they are returned rounded to
3 decimals; when both are zero, role-dependent defaults — (0.9, 0.1) for
A-roll, (0.0, 1.0) for B-roll, (0.2, 0.8) otherwise — are returned
instead of 0.0.  All returned numeric fields lie in [0,1]. -/
theorem C6_payload_coercion (p : ClassifierPayload) :
    (classify_frame p).role ∈ ALLOWED_ROLES ∧
    (classify_frame p).role =
      (match p.role with
        | some r => if r ∈ ALLOWED_ROLES then r else "B-roll"
        | none => "B-roll") ∧
    0 ≤ (classify_frame p).confidence ∧ (classify_frame p).confidence ≤ 1 ∧
    ((p.confidence = none ∨ p.confidence = some none) →
      (classify_frame p).confidence = 0.5) ∧
    ((p.a_role_ratio = none ∨ p.a_role_ratio = some none) →
      parsed_ratio p.a_role_ratio = 0) ∧
    ((p.b_role_ratio = none ∨ p.b_role_ratio = some none) →
      parsed_ratio p.b_role_ratio = 0) ∧
    (¬ (parsed_ratio p.a_role_ratio = 0 ∧ parsed_ratio p.b_role_ratio = 0) →
      (classify_frame p).a_role_ratio = round3 (parsed_ratio p.a_role_ratio) ∧
      (classify_frame p).b_role_ratio = round3 (parsed_ratio p.b_role_ratio)) ∧
    ((parsed_ratio p.a_role_ratio = 0 ∧ parsed_ratio p.b_role_ratio = 0) →
      ((classify_frame p).a_role_ratio, (classify_frame p).b_role_ratio) =
        (if coerced_role p = "A-roll" then ((0.9 : ℚ), (0.1 : ℚ))
         else if coerced_role p = "B-roll" then ((0 : ℚ), (1 : ℚ))
         else ((0.2 : ℚ), (0.8 : ℚ)))) ∧
    0 ≤ (classify_frame p).a_role_ratio ∧
    (classify_frame p).a_role_ratio ≤ 1 ∧
    0 ≤ (classify_frame p).b_role_ratio ∧
    (classify_frame p).b_role_ratio ≤ 1 := by
  have hrole : (classify_frame p).role = coerced_role p := rfl
  have hconf : (classify_frame p).confidence =
      max 0 (min 1 (parsed_confidence p.confidence)) := rfl
  have hA : (classify_frame p).a_role_ratio =
      round3 (substituted_ratios (coerced_role p) (parsed_ratio p.a_role_ratio)
        (parsed_ratio p.b_role_ratio)).1 := rfl
  have hB : (classify_frame p).b_role_ratio =
      round3 (substituted_ratios (coerced_role p) (parsed_ratio p.a_role_ratio)
        (parsed_ratio p.b_role_ratio)).2 := rfl
  have hratio_bound : ∀ x y : ℚ, 0 ≤ x → x ≤ 1 → 0 ≤ y → y ≤ 1 →
      (0 ≤ round3 (substituted_ratios (coerced_role p) x y).1 ∧
        round3 (substituted_ratios (coerced_role p) x y).1 ≤ 1) ∧
      (0 ≤ round3 (substituted_ratios (coerced_role p) x y).2 ∧
        round3 (substituted_ratios (coerced_role p) x y).2 ≤ 1) := by
    intro x y hx0 hx1 hy0 hy1
    unfold substituted_ratios
    split_ifs with hz h1 h2
    · exact ⟨by constructor <;> decide, by constructor <;> decide⟩
    · exact ⟨by constructor <;> decide, by constructor <;> decide⟩
    · exact ⟨by constructor <;> decide, by constructor <;> decide⟩
    · exact ⟨round3_bounds x hx0 hx1, round3_bounds y hy0 hy1⟩
  have hpa := parsed_ratio_bounds p.a_role_ratio
  have hpb := parsed_ratio_bounds p.b_role_ratio
  have hbounds := hratio_bound (parsed_ratio p.a_role_ratio)
    (parsed_ratio p.b_role_ratio) hpa.1 hpa.2 hpb.1 hpb.2
  refine ⟨?_, ?_, ?_, ?_, ?_, ?_, ?_, ?_, ?_, ?_, ?_, ?_, ?_⟩
  · rw [hrole]
    unfold coerced_role
    cases p.role with
    | none => decide
    | some r =>
      show (if r ∈ ALLOWED_ROLES then r else "B-roll") ∈ ALLOWED_ROLES
      split_ifs with hmem
      · exact hmem
      · decide
  · rw [hrole]
    unfold coerced_role
    cases p.role with
    | none => rw [if_pos (by decide)]
    | some r => rfl
  · rw [hconf]; exact le_max_left _ _
  · rw [hconf]; exact max_le (by norm_num) (min_le_left _ _)
  · intro hmiss
    rw [hconf]
    rcases hmiss with hm | hm <;> rw [hm] <;> decide
  · intro hmiss
    rcases hmiss with hm | hm <;> rw [hm] <;> rfl
  · intro hmiss
    rcases hmiss with hm | hm <;> rw [hm] <;> rfl
  · intro hnz
    rw [hA, hB]
    unfold substituted_ratios
    rw [if_neg hnz]
    exact ⟨rfl, rfl⟩
  · intro hz
    have hsub : substituted_ratios (coerced_role p) (parsed_ratio p.a_role_ratio)
        (parsed_ratio p.b_role_ratio) =
        (if coerced_role p = "A-roll" then ((0.9 : ℚ), (0.1 : ℚ))
         else if coerced_role p = "B-roll" then ((0 : ℚ), (1 : ℚ))
         else ((0.2 : ℚ), (0.8 : ℚ))) := by
      unfold substituted_ratios
      rw [if_pos hz]
    rw [hA, hB, hsub]
    split_ifs <;> decide
  · rw [hA]; exact hbounds.1.1
  · rw [hA]; exact hbounds.1.2
  · rw [hB]; exact hbounds.2.1
  · rw [hB]; exact hbounds.2.2

/-- Claim C6, as stated, is false: a payload whose a-ratio key is missing
comes back with a_role_ratio 0.9 (the role-dependent default), not 0.0. -/
theorem C6_counterexample :
    payloadMissingRatios.a_role_ratio = none ∧
    (classify_frame payloadMissingRatios).a_role_ratio ≠ 0 := by
  decide

/-- Claim C10 (amended): when both parsed ratios are 0, `classify_frame`
substitutes role-dependent defaults — (0.9, 0.1) for A-roll, (0.0, 1.0)
for B-roll, (0.2, 0.8) otherwise — so the ratio pair before the final
3-decimal rounding always differs from (0, 0); the rounded returned pair
can nevertheless be (0, 0) when a parsed ratio is positive but below
0.0005. -/
theorem C10_zero_pair_substitution (p : ClassifierPayload) :
    ((parsed_ratio p.a_role_ratio = 0 ∧ parsed_ratio p.b_role_ratio = 0) →
      substituted_ratios (coerced_role p) (parsed_ratio p.a_role_ratio)
          (parsed_ratio p.b_role_ratio) =
        (if coerced_role p = "A-roll" then ((0.9 : ℚ), (0.1 : ℚ))
         else if coerced_role p = "B-roll" then ((0 : ℚ), (1 : ℚ))
         else ((0.2 : ℚ), (0.8 : ℚ)))) ∧
    substituted_ratios (coerced_role p) (parsed_ratio p.a_role_ratio)
        (parsed_ratio p.b_role_ratio) ≠ ((0 : ℚ), (0 : ℚ)) ∧
    (classify_frame p).a_role_ratio =
      round3 (substituted_ratios (coerced_role p) (parsed_ratio p.a_role_ratio)
        (parsed_ratio p.b_role_ratio)).1 ∧
    (classify_frame p).b_role_ratio =
      round3 (substituted_ratios (coerced_role p) (parsed_ratio p.a_role_ratio)
        (parsed_ratio p.b_role_ratio)).2 := by
  refine ⟨?_, ?_, rfl, rfl⟩
  · intro hz
    unfold substituted_ratios
    rw [if_pos hz]
  · by_cases hz : parsed_ratio p.a_role_ratio = 0 ∧ parsed_ratio p.b_role_ratio = 0
    · unfold substituted_ratios
      rw [if_pos hz]
      split_ifs <;> intro heq <;>
        exact absurd (congrArg Prod.snd heq) (by norm_num)
    · unfold substituted_ratios
      rw [if_neg hz]
      intro heq
      exact hz ⟨congrArg Prod.fst heq, congrArg Prod.snd heq⟩

/-- Claim C10, as stated, is false: with a parsed a-ratio of 1/10000 and
b-ratio 0, the returned rounded ratio pair is exactly (0, 0). -/
theorem C10_counterexample :
    (classify_frame payloadTinyRatio).a_role_ratio = 0 ∧
    (classify_frame payloadTinyRatio).b_role_ratio = 0 := by
  decide
